import Mathlib

/-!
Verification of the SkinInTheGameServer indexer.

This file gives a shallow embedding of the decision logic of the repository:

- the history repair pass of src/fixData.ts (fixVolumeHistory and the
  per-row body of checkAndFixAllTokenData),
- the volume aggregator of src/main.ts (updateTokenDataVolume),
- the metadata projector of src/main.ts (insertNewsOnSaleCreated and
  insertTokenDataOnSaleCreated),
- the best-comment ranker of src/main.ts (getBestComment and the tail of
  the realtime comment handler).

Modelling conventions.

JavaScript numbers are modelled by the type JSNum: NaN, the two
infinities, and finite values as rationals.  Floating-point rounding is
abstracted away; none of the properties below depend on it.

JavaScript strings that appear as volume or time fields are modelled
abstractly by JStr, which records exactly the observations the code makes
of such a string: the number of dot characters it contains (the regex
match count) and the result of parseFloat on it.  The extra field sid
distinguishes distinct source strings that share both observations, so
that equality of JStr values models equality of the underlying strings.
Sample realisations: the string two-dot corrupted value holds dots = 2;
the string for Infinity holds dots = 0 and parsed = posInf; a plain
decimal numeral holds dots less than or equal to 1 and a finite parse.

Array.prototype.sort is modelled by a stable insertion sort driven by the
boolean predicate derived from the numeric comparator of the source
(compare by subtraction, where a NaN comparator value counts as zero, as
the ECMAScript SortCompare rule prescribes).  ECMAScript requires sort to
be stable, so any conforming engine agrees with this model whenever the
comparator is consistent.

Array.prototype.slice with one argument is modelled by jsSlice, including
the from-the-end meaning of a negative start index.

JSON.stringify comparison is modelled by structural equality of an
explicit Json representation in which NaN and the infinities serialize to
null (as JSON.stringify does), an undefined field is omitted, and history
entries serialize with the key order time then volume (the order the code
uses when it rebuilds entries).
-/

namespace SkinInTheGame

/-- Model of a JavaScript number: NaN, the infinities, or a finite value. -/
inductive JSNum where
  | nan : JSNum
  | posInf : JSNum
  | negInf : JSNum
  | fin (q : ℚ) : JSNum
deriving DecidableEq, Repr

/-- Finiteness of a JavaScript number (Number.isFinite). -/
def JSNum.isFinite : JSNum → Bool
  | .fin _ => true
  | _ => false

/-- Abstract model of a JavaScript string as observed by fixVolumeHistory:
the count of dot characters (the regex match count on the string), the
parseFloat result (nan when the parse fails), and an identity tag sid that
separates distinct source strings sharing both observations. -/
structure JStr where
  dots : Nat
  parsed : JSNum
  sid : Nat
deriving DecidableEq, Repr

/-- Three-way comparison of rationals. -/
def ratCmp (a b : ℚ) : Ordering :=
  if a < b then .lt else if b < a then .gt else .eq

/-- Sign of the JavaScript subtraction a - b as the sort comparator uses it:
a NaN result (either operand NaN, or infinities of the same sign) counts as
zero, following the ECMAScript SortCompare rule. -/
def timeCmp : JSNum → JSNum → Ordering
  | .nan, _ => .eq
  | _, .nan => .eq
  | .posInf, .posInf => .eq
  | .posInf, _ => .gt
  | .negInf, .negInf => .eq
  | .negInf, _ => .lt
  | .fin _, .posInf => .lt
  | .fin _, .negInf => .gt
  | .fin a, .fin b => ratCmp a b

/-- The boolean order driving the stable sort: a may stay before b unless
the comparator says a is strictly greater. -/
def timeLe (a b : JSNum) : Bool := timeCmp a b != Ordering.gt

/-- Structural model of a JSON value as produced by JSON.stringify on the
data this repository stores.  pairObj models an object with key order time
then volume; a none field is an omitted (undefined) property. -/
inductive Json where
  | null : Json
  | bool (b : Bool) : Json
  | num (q : ℚ) : Json
  | str (s : JStr) : Json
  | arr (elems : List Json) : Json
  | pairObj (time volume : Option Json) : Json

mutual

/-- Structural equality of Json values (equality of the stringified texts). -/
def Json.beq : Json → Json → Bool
  | .null, .null => true
  | .bool a, .bool b => a == b
  | .num a, .num b => a == b
  | .str a, .str b => a == b
  | .arr xs, .arr ys => Json.beqList xs ys
  | .pairObj t1 v1, .pairObj t2 v2 => Json.beqOpt t1 t2 && Json.beqOpt v1 v2
  | _, _ => false

/-- Elementwise Json.beq on lists. -/
def Json.beqList : List Json → List Json → Bool
  | [], [] => true
  | x :: xs, y :: ys => Json.beq x y && Json.beqList xs ys
  | _, _ => false

/-- Json.beq lifted to optional values (omitted properties). -/
def Json.beqOpt : Option Json → Option Json → Bool
  | none, none => true
  | some x, some y => Json.beq x y
  | _, _ => false

end

/-- Value of the volume or time field of a stored history entry, as the
dynamically typed code distinguishes them: a number, a string, null,
undefined, or any other value.  For another value, coerced is the number
obtained by parseFloat after implicit string conversion and ser is its
serialized form. -/
inductive RawField where
  | num (x : JSNum) : RawField
  | str (s : JStr) : RawField
  | jnull : RawField
  | undef : RawField
  | other (coerced : JSNum) (ser : Json) : RawField

/-- A stored history entry that is a truthy object: its volume and time
fields (either may be absent, modelled by undef). -/
structure RawEntry where
  volume : RawField
  time : RawField

/-- One slot of the raw volumeHistory array: an entry object, or any other
value (null, undefined, a primitive, a nested array), which the filter
always rejects; ser is its serialized form, with undefined rendered as
null as JSON.stringify does inside arrays. -/
inductive RawItem where
  | entry (e : RawEntry) : RawItem
  | nonEntry (ser : Json) : RawItem

/-- The volume value the filter of fixVolumeHistory accepts: a number is
accepted as-is; a string is rejected when it contains more than one dot or
when parseFloat yields NaN; everything else is rejected. -/
def volNum : RawField → Option JSNum
  | .num x => some x
  | .str s => if 1 < s.dots then none else if s.parsed = .nan then none else some s.parsed
  | _ => none

/-- The time value the filter accepts: a number is accepted as-is (no NaN
check on that branch); any other value is string-converted and parsed with
parseFloat, and rejected when that yields NaN. -/
def timeNum : RawField → Option JSNum
  | .num x => some x
  | .str s => if s.parsed = .nan then none else some s.parsed
  | .other c _ => if c = .nan then none else some c
  | .jnull => none
  | .undef => none

/-- The filter predicate of fixVolumeHistory: falsy or non-object items and
items whose volume is null or undefined are rejected, then the volume and
time checks above must both pass. -/
def keepEntry : RawItem → Bool
  | .entry e => (volNum e.volume).isSome && (timeNum e.time).isSome
  | .nonEntry _ => false

/-- Numeric coercion used by the sort comparator and by the rebuild step:
keep a number, otherwise parseFloat (with implicit string conversion). -/
def coerceNum : RawField → JSNum
  | .num x => x
  | .str s => s.parsed
  | .other c _ => c
  | .jnull => .nan
  | .undef => .nan

/-- Sort key of an item, as the comparator of fixVolumeHistory computes it. -/
def itemTime : RawItem → JSNum
  | .entry e => coerceNum e.time
  | .nonEntry _ => .nan

/-- A rebuilt history sample with numeric time and volume. -/
structure Sample where
  time : JSNum
  volume : JSNum
deriving DecidableEq, Repr

/-- The rebuild step of fixVolumeHistory applied to one retained item.
Only entries survive the filter; the nonEntry case is unreachable there. -/
def convertItem : RawItem → Sample
  | .entry e => ⟨coerceNum e.time, coerceNum e.volume⟩
  | .nonEntry _ => ⟨.nan, .nan⟩

/-- Stable insertion of an element into a list: it goes before the first
element it may precede. -/
def jsInsert (le : α → α → Bool) (a : α) : List α → List α
  | [] => [a]
  | b :: l => if le a b then a :: b :: l else b :: jsInsert le a l

/-- Stable sort modelling Array.prototype.sort with the given order. -/
def jsStableSort (le : α → α → Bool) : List α → List α
  | [] => []
  | a :: l => jsInsert le a (jsStableSort le l)

/-- Item order derived from the numeric comparator of fixVolumeHistory. -/
def itemLe (a b : RawItem) : Bool := timeLe (itemTime a) (itemTime b)

/-- Array.prototype.slice with one argument: a negative start counts from
the end of the array, clamped at zero. -/
def jsSlice (start : Int) (l : List α) : List α :=
  if start < 0 then l.drop (l.length + start).toNat
  else l.drop start.toNat

/-- The repair algorithm of src/fixData.ts applied to an array value:
filter out invalid entries, sort ascending by time, truncate via
slice(length > 4 ? length - 7 : 0), and rebuild numeric samples. -/
def fixVolumeHistory (original : List RawItem) : List Sample :=
  let filtered := original.filter keepEntry
  let sorted := jsStableSort itemLe filtered
  let startIndex : Int := if 4 < sorted.length then (sorted.length : Int) - 7 else 0
  let truncated := jsSlice startIndex sorted
  truncated.map convertItem

/-- A stored volumeHistory value before the array check: either an array of
items or any non-array value (null, undefined, a primitive, an object). -/
inductive RawHistoryValue where
  | arr (items : List RawItem) : RawHistoryValue
  | nonArray (ser : Json) : RawHistoryValue

/-- Model of fixVolumeHistory including its leading guard: a value that is
falsy or not an array yields the empty history. -/
def fixVolumeHistoryTop : RawHistoryValue → List Sample
  | .arr items => fixVolumeHistory items
  | .nonArray _ => []

/-- Serialization of a number: JSON.stringify renders NaN and the
infinities as null. -/
def encodeNum (x : JSNum) : Json :=
  match x with
  | .fin q => .num q
  | _ => .null

/-- Serialization of an entry field; an undefined property is omitted. -/
def encodeField : RawField → Option Json
  | .num x => some (encodeNum x)
  | .str s => some (.str s)
  | .jnull => some .null
  | .undef => none
  | .other _ ser => some ser

/-- Serialization of one raw history slot. -/
def encodeRawItem : RawItem → Json
  | .entry e => .pairObj (encodeField e.time) (encodeField e.volume)
  | .nonEntry ser => ser

/-- Serialization of a raw history array (JSON.stringify of the original). -/
def encodeRawHistory (l : List RawItem) : Json := .arr (l.map encodeRawItem)

/-- Serialization of a rebuilt sample. -/
def encodeSample (s : Sample) : Json :=
  .pairObj (some (encodeNum s.time)) (some (encodeNum s.volume))

/-- Serialization of a rebuilt history (JSON.stringify of the fixed array). -/
def encodeFixedHistory (l : List Sample) : Json := .arr (l.map encodeSample)

/-- The update payload checkAndFixAllTokenData writes for one row. -/
structure RowUpdate where
  volumeHistory : List Sample
  volume : JSNum
deriving DecidableEq, Repr

/-- The per-row body of checkAndFixAllTokenData of src/fixData.ts: read the
stored history (null column means empty), repair it, compare the
serializations, and either skip (none) or issue the single update writing
the repaired history together with the volume of its last sample (zero
when none survive). -/
def checkAndFixRow (volumeHistory : Option (List RawItem)) : Option RowUpdate :=
  let originalHistory := volumeHistory.getD []
  let fixed := fixVolumeHistory originalHistory
  if Json.beq (encodeRawHistory originalHistory) (encodeFixedHistory fixed) then none
  else
    some ⟨fixed, match fixed.getLast? with
                 | some s => s.volume
                 | none => .fin 0⟩

/-- Reinjection of a repaired sample into the raw schema, as it is stored
back: both fields are plain numbers. -/
def sampleToRaw (s : Sample) : RawItem := .entry ⟨.num s.volume, .num s.time⟩

/-- A comment record as the best-comment ranker reads it; createdAt is the
creation time in milliseconds (the getTime value of the stored date). -/
structure Comment where
  walletAddress : String
  content : String
  createdAt : Int
deriving DecidableEq, Repr

/-- One iteration of the loop of getBestComment in src/main.ts.  The state
is the current best comment and best balance (initially null and zero).  A
failed balance lookup (none) skips the comment.  A strictly greater
balance takes over; an equal balance with a non-null current best defers
to the later createdAt. -/
def bestStep (tokenBalances : String → Option Int)
    (acc : Option Comment × Int) (comment : Comment) : Option Comment × Int :=
  match tokenBalances comment.walletAddress with
  | none => acc
  | some balanceBN =>
    if acc.2 < balanceBN then (some comment, balanceBN)
    else if balanceBN = acc.2 then
      match acc.1 with
      | none => acc
      | some best =>
        if best.createdAt < comment.createdAt then (some comment, acc.2) else acc
    else acc

/-- Model of getBestComment of src/main.ts: fold the loop body over the
comments with best = null and bestBalance = 0. -/
def getBestComment (tokenBalances : String → Option Int)
    (allComments : List Comment) : Option Comment :=
  (allComments.foldl (bestStep tokenBalances) (none, 0)).1

/-- The best_comments element the realtime comment handler writes. -/
structure BestCommentPayload where
  content : String
  walletAddress : String
  position : String
deriving DecidableEq, Repr

/-- Tail of the realtime comment handler of src/main.ts: when
getBestComment yields null the handler returns without updating; otherwise
it writes the single-element payload built from the winner. -/
def bestCommentsUpdate (tokenBalances : String → Option Int)
    (allComments : List Comment) : Option (List BestCommentPayload) :=
  match getBestComment tokenBalances allComments with
  | none => none
  | some best => some [⟨best.content, best.walletAddress, "default"⟩]

/-- A volumeHistory entry as the volume aggregator appends it; the volume
type is abstract (the first indexer keeps the formatEther string, the
second a parsed number). -/
structure VolumeHistoryItem (α : Type) where
  time : Int
  volume : α
deriving DecidableEq, Repr

/-- A TokenData row as the volume aggregator reads and writes it. -/
structure TokenDataRow (α : Type) where
  volume : α
  volumeHistory : List (VolumeHistoryItem α)
deriving DecidableEq, Repr

/-- Model of updateTokenDataVolume of src/main.ts for one address: convert
the cumulative raised amount with formatEther, then either insert a fresh
row holding the singleton history, or append the new sample to the end of
the existing history and overwrite volume with the new value. -/
def updateTokenDataVolume (formatEther : Int → α)
    (existing : Option (TokenDataRow α)) (totalRaised : Int)
    (blockTimestampMs : Int) : TokenDataRow α :=
  let newVolumeEth := formatEther totalRaised
  match existing with
  | none => ⟨newVolumeEth, [⟨blockTimestampMs, newVolumeEth⟩]⟩
  | some row => ⟨newVolumeEth, row.volumeHistory ++ [⟨blockTimestampMs, newVolumeEth⟩]⟩

/-- A TokensBought or TokensSold event as the aggregator consumes it. -/
structure VolumeEvent where
  totalRaised : Int
  blockTimestampMs : Int
deriving DecidableEq, Repr

/-- Sequential application of volume events to the stored row of one
address. -/
def applyVolumeEvents (formatEther : Int → α)
    (st : Option (TokenDataRow α)) (events : List VolumeEvent) :
    Option (TokenDataRow α) :=
  events.foldl
    (fun s e => some (updateTokenDataVolume formatEther s e.totalRaised e.blockTimestampMs))
    st

/-- ASCII lowercasing of one character, modelling the effect of
String.prototype.toLowerCase on the hexadecimal address strings this
repository canonicalizes. -/
def lowerChar (c : Char) : Char :=
  if 65 ≤ c.toNat ∧ c.toNat ≤ 90 then Char.ofNat (c.toNat + 32) else c

/-- The address canonicalizer: lowercase the address string. -/
def canonicalAddress (s : String) : String := ⟨s.data.map lowerChar⟩

/-- A News row as the metadata projector creates it. -/
structure NewsRecord where
  onchainAddress : String
  date : String
  title : String
  description : String
  imageUrl : String
  isLaunched : Bool
deriving DecidableEq, Repr

/-- Model of insertNewsOnSaleCreated of src/main.ts: read by canonical
address; when a record exists, skip; otherwise insert the new record with
isLaunched false and the timestamp stored as a string. -/
def insertNewsOnSaleCreated (store : List NewsRecord)
    (saleContractAddress : String) (blockTimestampMs : Int)
    (name description logoUrl : String) : List NewsRecord :=
  let addressLower := canonicalAddress saleContractAddress
  if store.any (fun r => r.onchainAddress == addressLower) then store
  else store ++ [⟨addressLower, toString blockTimestampMs, name, description, logoUrl, false⟩]

/-- A TokenData row as the creation handler inserts it. -/
structure TokenDataRecord where
  onchainAddress : String
  volume : JSNum
  volumeHistory : List Sample
deriving DecidableEq, Repr

/-- Model of insertTokenDataOnSaleCreated of src/main.ts: read by canonical
address; when a record exists, skip; otherwise insert the fresh row with
volume zero and empty history. -/
def insertTokenDataOnSaleCreated (store : List TokenDataRecord)
    (saleContractAddress : String) : List TokenDataRecord :=
  let addressLower := canonicalAddress saleContractAddress
  if store.any (fun r => r.onchainAddress == addressLower) then store
  else store ++ [⟨addressLower, .fin 0, []⟩]

/-- Modelled from the spec: the retention start index exactly as claim C1
and section 4.3 of the spec state it, namely the larger of length minus
seven and zero when the length exceeds four, else zero (natural
subtraction truncates at zero, giving the stated max). -/
def specStartIndex (n : Nat) : Nat := if 4 < n then n - 7 else 0

/-- Modelled from the spec: the keep predicate exactly as claim C6 states
it, retaining a sample unless its volume is null or undefined, its textual
volume has more than one dot character or fails to parse to a finite
number, or its time does not coerce to a finite number. -/
def claimKeepC6 : RawItem → Bool
  | .entry e =>
    !(match e.volume with
      | .jnull => true
      | .undef => true
      | .str s => 1 < s.dots || !s.parsed.isFinite
      | _ => false)
    && (coerceNum e.time).isFinite
  | .nonEntry _ => false

/-- Amended keep predicate for claim C6: a sample is retained iff its
volume is a number, or a string with at most one dot character whose
parseFloat value is not NaN; and its time is a number, or any other value
whose string coercion parses to something other than NaN.  Samples that
are not objects, and volumes that are null, undefined or of any other
type, are removed. -/
def amendedKeepC6 : RawItem → Bool
  | .entry e =>
    (match e.volume with
     | .num _ => true
     | .str s => !(decide (1 < s.dots)) && !(s.parsed == .nan)
     | .jnull => false
     | .undef => false
     | .other _ _ => false)
    &&
    (match e.time with
     | .num _ => true
     | .str s => !(s.parsed == .nan)
     | .jnull => false
     | .undef => false
     | .other c _ => !(c == .nan))
  | .nonEntry _ => false

/-- Property of a model number: it is finite and non-negative. -/
def finiteNonNeg (x : JSNum) : Prop := ∃ q : ℚ, x = .fin q ∧ 0 ≤ q

/-- Property of a model number: it is a finite integer. -/
def finiteInt (x : JSNum) : Prop := ∃ n : ℤ, x = .fin (n : ℚ)

/-- Helper for concrete inputs: a well-formed history entry with integer
time t and integer volume v, both stored as numbers. -/
def mkEntry (t v : Int) : RawItem := .entry ⟨.num (.fin (v : ℚ)), .num (.fin (t : ℚ))⟩

/-- Concrete history entry whose textual volume models the string holding
the text Infinity: zero dot characters, and parseFloat yields positive
infinity. -/
def infinityVolumeItem : RawItem := .entry ⟨.str ⟨0, .posInf, 0⟩, .num (.fin 0)⟩

/-- Concrete comment used on concrete inputs. -/
def commentA : Comment := ⟨"0xaaa", "first", 100⟩

/-- Concrete comment used on concrete inputs. -/
def commentB : Comment := ⟨"0xbbb", "second", 200⟩

/-- Concrete comment with the earlier creation time. -/
def commentC : Comment := ⟨"0xccc", "early", 10⟩

/-- Concrete comment with the later creation time. -/
def commentD : Comment := ⟨"0xddd", "late", 20⟩

/-- Concrete volume event used on concrete inputs. -/
def eventEx : VolumeEvent := ⟨5, 100⟩

/-- Concrete mixed-case address used on concrete inputs. -/
def addrEx : String := "0xAb"

/-! General lemmas about the stable sort and the slice model. -/

theorem length_jsInsert (le : α → α → Bool) (a : α) :
    ∀ l : List α, (jsInsert le a l).length = l.length + 1 := by
  intro l
  induction l with
  | nil => rfl
  | cons b t ih =>
    simp only [jsInsert]
    split
    · simp
    · simp [ih]

theorem length_jsStableSort (le : α → α → Bool) :
    ∀ l : List α, (jsStableSort le l).length = l.length := by
  intro l
  induction l with
  | nil => rfl
  | cons a t ih => simp [jsStableSort, length_jsInsert, ih]

theorem mem_jsInsert {le : α → α → Bool} {x a : α} :
    ∀ {l : List α}, x ∈ jsInsert le a l ↔ x = a ∨ x ∈ l := by
  intro l
  induction l with
  | nil => simp [jsInsert]
  | cons b t ih =>
    simp only [jsInsert]
    split
    · simp [or_comm, or_left_comm]
    · simp [ih]
      tauto

theorem mem_jsStableSort {le : α → α → Bool} {x : α} :
    ∀ {l : List α}, x ∈ jsStableSort le l ↔ x ∈ l := by
  intro l
  induction l with
  | nil => simp [jsStableSort]
  | cons a t ih => simp [jsStableSort, mem_jsInsert, ih]

theorem head?_jsInsert (le : α → α → Bool) (a : α) (l : List α) :
    (jsInsert le a l).head? = some a ∨ (jsInsert le a l).head? = l.head? := by
  cases l with
  | nil => left; rfl
  | cons b t =>
    simp only [jsInsert]
    split
    · left; rfl
    · right; rfl

theorem chain_jsInsert {le : α → α → Bool}
    (htot : ∀ a b, (le a b || le b a) = true) (a : α) :
    ∀ {l : List α}, List.Chain' (fun x y => le x y = true) l →
      List.Chain' (fun x y => le x y = true) (jsInsert le a l) := by
  intro l
  induction l with
  | nil => intro _; exact List.chain'_singleton a
  | cons b t ih =>
    intro hch
    simp only [jsInsert]
    split
    · rename_i hab
      exact List.chain'_cons.mpr ⟨hab, hch⟩
    · rename_i hab
      have hba : le b a = true := by
        have := htot a b
        simp [Bool.or_eq_true] at this
        rcases this with h | h
        · exact absurd h hab
        · exact h
      rcases List.chain'_cons'.mp hch with ⟨hhead, hcht⟩
      refine List.chain'_cons'.mpr ⟨?_, ih hcht⟩
      intro y hy
      rcases head?_jsInsert le a t with he | he
      · rw [he] at hy
        simp at hy
        subst hy
        exact hba
      · rw [he] at hy
        exact hhead y hy

theorem chain_jsStableSort {le : α → α → Bool}
    (htot : ∀ a b, (le a b || le b a) = true) :
    ∀ l : List α, List.Chain' (fun x y => le x y = true) (jsStableSort le l) := by
  intro l
  induction l with
  | nil => exact List.chain'_nil
  | cons a t ih => exact chain_jsInsert htot a ih

theorem jsStableSort_eq_self {le : α → α → Bool} :
    ∀ {l : List α}, List.Chain' (fun x y => le x y = true) l →
      jsStableSort le l = l := by
  intro l
  induction l with
  | nil => intro _; rfl
  | cons a t ih =>
    intro hch
    have htail : List.Chain' (fun x y => le x y = true) t := hch.tail
    show jsInsert le a (jsStableSort le t) = a :: t
    rw [ih htail]
    cases t with
    | nil => rfl
    | cons b t' =>
      have hab : le a b = true := (List.chain'_cons.mp hch).1
      simp [jsInsert, hab]

theorem jsSlice_eq_drop (i : Int) (l : List α) :
    jsSlice i l = l.drop (if i < 0 then (l.length + i).toNat else i.toNat) := by
  unfold jsSlice
  split <;> simp_all

theorem chain_jsSlice {R : α → α → Prop} {l : List α} (i : Int)
    (h : List.Chain' R l) : List.Chain' R (jsSlice i l) := by
  rw [jsSlice_eq_drop]
  exact h.drop _

theorem mem_jsSlice {x : α} {l : List α} (i : Int) (h : x ∈ jsSlice i l) : x ∈ l := by
  rw [jsSlice_eq_drop] at h
  exact List.drop_subset _ l h

theorem length_jsSlice (i : Int) (l : List α) :
    (jsSlice i l).length = l.length - (if i < 0 then (l.length + i).toNat else i.toNat) := by
  rw [jsSlice_eq_drop]
  split <;> exact List.length_drop _ _

/-! Lemmas about the comparator and the repair pipeline. -/

theorem timeLe_total (a b : JSNum) : (timeLe a b || timeLe b a) = true := by
  cases a <;> cases b <;>
    first
    | rfl
    | (rename_i qa qb
       rcases lt_trichotomy qa qb with h | h | h
       · simp only [timeLe, timeCmp, ratCmp, if_pos h, if_neg (asymm h)]
         decide
       · subst h
         simp only [timeLe, timeCmp, ratCmp, lt_irrefl, if_neg (lt_irrefl qa)]
         decide
       · simp only [timeLe, timeCmp, ratCmp, if_pos h, if_neg (asymm h)]
         decide)

theorem itemLe_total (a b : RawItem) : (itemLe a b || itemLe b a) = true :=
  timeLe_total (itemTime a) (itemTime b)

theorem fixVolumeHistory_eq (l : List RawItem) :
    fixVolumeHistory l =
      (jsSlice
        (if 4 < (jsStableSort itemLe (l.filter keepEntry)).length
         then ((jsStableSort itemLe (l.filter keepEntry)).length : Int) - 7 else 0)
        (jsStableSort itemLe (l.filter keepEntry))).map convertItem := rfl

theorem length_fixVolumeHistory (l : List RawItem) :
    (fixVolumeHistory l).length =
      (if (l.filter keepEntry).length ≤ 4 then (l.filter keepEntry).length
       else if (l.filter keepEntry).length < 7 then 7 - (l.filter keepEntry).length
       else 7) := by
  rw [fixVolumeHistory_eq, List.length_map, length_jsSlice, length_jsStableSort]
  split_ifs <;> omega

theorem length_fixVolumeHistory_cases (l : List RawItem) :
    (fixVolumeHistory l).length ≤ 4 ∨ (fixVolumeHistory l).length = 7 := by
  rw [length_fixVolumeHistory]
  split_ifs <;> omega

theorem mem_fixVolumeHistory {s : Sample} {l : List RawItem}
    (h : s ∈ fixVolumeHistory l) :
    ∃ it ∈ l, keepEntry it = true ∧ s = convertItem it := by
  rw [fixVolumeHistory_eq] at h
  rcases List.mem_map.mp h with ⟨it, hit, hconv⟩
  have hsort : it ∈ jsStableSort itemLe (l.filter keepEntry) := mem_jsSlice _ hit
  have hfil : it ∈ l.filter keepEntry := mem_jsStableSort.mp hsort
  rcases List.mem_filter.mp hfil with ⟨hmem, hkeep⟩
  exact ⟨it, hmem, hkeep, hconv.symm⟩

theorem keepEntry_sampleToRaw (s : Sample) : keepEntry (sampleToRaw s) = true := rfl

theorem itemTime_sampleToRaw (s : Sample) : itemTime (sampleToRaw s) = s.time := rfl

theorem convertItem_sampleToRaw (s : Sample) : convertItem (sampleToRaw s) = s := rfl

theorem time_convertItem (it : RawItem) : (convertItem it).time = itemTime it := by
  cases it <;> rfl

theorem chain_fixVolumeHistory (l : List RawItem) :
    List.Chain' (fun x y : Sample => timeLe x.time y.time = true) (fixVolumeHistory l) := by
  rw [fixVolumeHistory_eq, List.chain'_map]
  have h1 : List.Chain' (fun a b : RawItem => itemLe a b = true)
      (jsStableSort itemLe (l.filter keepEntry)) :=
    chain_jsStableSort itemLe_total _
  have h2 := chain_jsSlice
    (if 4 < (jsStableSort itemLe (l.filter keepEntry)).length
     then ((jsStableSort itemLe (l.filter keepEntry)).length : Int) - 7 else 0) h1
  exact h2.imp (fun a b hab => by
    rw [time_convertItem, time_convertItem]
    exact hab)

theorem jsSlice_startIndex_eq_self (l : List α) (h : l.length ≤ 4 ∨ l.length = 7) :
    jsSlice (if 4 < l.length then (l.length : Int) - 7 else 0) l = l := by
  rcases h with h | h
  · rw [if_neg (by omega)]
    simp [jsSlice]
  · rw [h, if_pos (by norm_num)]
    norm_num
    simp [jsSlice]

theorem fixVolumeHistory_idem (l : List RawItem) :
    fixVolumeHistory ((fixVolumeHistory l).map sampleToRaw) = fixVolumeHistory l := by
  have hfil : ((fixVolumeHistory l).map sampleToRaw).filter keepEntry
      = (fixVolumeHistory l).map sampleToRaw :=
    List.filter_eq_self.mpr (by
      intro a ha
      rcases List.mem_map.mp ha with ⟨s, _, rfl⟩
      exact keepEntry_sampleToRaw s)
  have hchain : List.Chain' (fun a b : RawItem => itemLe a b = true)
      ((fixVolumeHistory l).map sampleToRaw) := by
    rw [List.chain'_map]
    exact (chain_fixVolumeHistory l).imp (fun a b hab => by
      show timeLe (itemTime (sampleToRaw a)) (itemTime (sampleToRaw b)) = true
      rw [itemTime_sampleToRaw, itemTime_sampleToRaw]
      exact hab)
  have hsort : jsStableSort itemLe ((fixVolumeHistory l).map sampleToRaw)
      = (fixVolumeHistory l).map sampleToRaw := jsStableSort_eq_self hchain
  have hlen : ((fixVolumeHistory l).map sampleToRaw).length ≤ 4 ∨
      ((fixVolumeHistory l).map sampleToRaw).length = 7 := by
    rw [List.length_map]
    exact length_fixVolumeHistory_cases l
  rw [fixVolumeHistory_eq, hfil, hsort, jsSlice_startIndex_eq_self _ hlen, List.map_map]
  have hcomp : convertItem ∘ sampleToRaw = id := funext fun s => rfl
  rw [hcomp, List.map_id]

mutual

theorem Json.beq_refl : (x : Json) → Json.beq x x = true
  | .null => rfl
  | .bool b => by simp [Json.beq]
  | .num q => by simp [Json.beq]
  | .str s => by simp [Json.beq]
  | .arr xs => by simp [Json.beq, Json.beqList_refl xs]
  | .pairObj t v => by simp [Json.beq, Json.beqOpt_refl t, Json.beqOpt_refl v]

theorem Json.beqList_refl : (xs : List Json) → Json.beqList xs xs = true
  | [] => rfl
  | x :: xs => by simp [Json.beqList, Json.beq_refl x, Json.beqList_refl xs]

theorem Json.beqOpt_refl : (x : Option Json) → Json.beqOpt x x = true
  | none => rfl
  | some x => by simp [Json.beqOpt, Json.beq_refl x]

end

theorem encodeRaw_of_fixed (F : List Sample) :
    encodeRawHistory (F.map sampleToRaw) = encodeFixedHistory F := by
  rw [encodeRawHistory, List.map_map]
  rfl

theorem keepEntry_eq_amended (it : RawItem) : keepEntry it = amendedKeepC6 it := by
  cases it with
  | nonEntry ser => rfl
  | entry e =>
    cases e with
    | mk v t =>
      cases v <;> cases t <;>
        simp [keepEntry, amendedKeepC6, volNum, timeNum] <;>
        split_ifs <;>
        simp_all

theorem foldl_bestStep_zero (bal : String → Option Int) :
    ∀ cs : List Comment, (∀ c ∈ cs, bal c.walletAddress = some 0) →
      cs.foldl (bestStep bal) (none, 0) = (none, 0) := by
  intro cs
  induction cs with
  | nil => intro _; rfl
  | cons c t ih =>
    intro h
    rw [List.foldl_cons]
    have hc : bal c.walletAddress = some 0 := h c (by simp)
    have hstep : bestStep bal (none, 0) c = (none, 0) := by
      unfold bestStep
      rw [hc]
      simp
    rw [hstep]
    exact ih (fun c hc => h c (List.mem_cons_of_mem _ hc))

theorem applyVolumeEvents_from_some (f : Int → α) :
    ∀ (events : List VolumeEvent) (row : TokenDataRow α),
      applyVolumeEvents f (some row) events =
        some ⟨(events.getLast?).elim row.volume (fun e => f e.totalRaised),
              row.volumeHistory ++
                events.map (fun e => ⟨e.blockTimestampMs, f e.totalRaised⟩)⟩ := by
  intro events
  induction events with
  | nil => intro row; simp [applyVolumeEvents]
  | cons e t ih =>
    intro row
    have hcons : applyVolumeEvents f (some row) (e :: t)
        = applyVolumeEvents f
            (some ⟨f e.totalRaised,
                   row.volumeHistory ++ [⟨e.blockTimestampMs, f e.totalRaised⟩]⟩) t := rfl
    rw [hcons, ih]
    cases t with
    | nil => simp
    | cons b t' => simp [List.getLast?_cons]

/-! Claim theorems. -/

/-- Claim C1, counterexample: on five valid samples with increasing times
the retention step keeps only the last two samples, while the start index
formula stated by the claim (the larger of five minus seven and zero,
hence zero) would retain all five. -/
theorem retention_five_keeps_two :
    fixVolumeHistory [mkEntry 1 1, mkEntry 2 2, mkEntry 3 3, mkEntry 4 4, mkEntry 5 5]
      = [⟨.fin 4, .fin 4⟩, ⟨.fin 5, .fin 5⟩] ∧
    specStartIndex 5 = 0 := by
  constructor
  · decide
  · decide

/-- Claim C1 as amended: on a list of N valid samples the slice start
index follows the JavaScript negative-start semantics, so the repair pass
retains all N samples when N is at most four, the last seven minus N
samples when N is five or six, and the last seven samples when N is at
least seven. -/
theorem retention_window_length (l : List RawItem)
    (h : ∀ it ∈ l, keepEntry it = true) :
    (fixVolumeHistoryTop (.arr l)).length =
      (if l.length ≤ 4 then l.length
       else if l.length < 7 then 7 - l.length
       else 7) := by
  show (fixVolumeHistory l).length = _
  rw [length_fixVolumeHistory, List.filter_eq_self.mpr h]

/-- Witness for the amended claim C1 at a concrete six-sample input. -/
theorem retention_window_length_witness :
    (fixVolumeHistoryTop
      (.arr [mkEntry 1 1, mkEntry 2 2, mkEntry 3 3, mkEntry 4 4, mkEntry 5 5, mkEntry 6 6])).length
      = 1 :=
  retention_window_length _ (by decide)

/-- Claim C2, counterexample: with two comments whose balance lookups both
return zero, getBestComment returns null and no best-comment update is
issued, where the claim asserts the first comment considered is selected
and written. -/
theorem all_zero_balances_select_none :
    getBestComment (fun _ => some 0) [commentA, commentB] = none ∧
    bestCommentsUpdate (fun _ => some 0) [commentA, commentB] = none := by
  constructor
  · rfl
  · rfl

/-- Claim C2 as amended: whenever every commenter balance lookup succeeds
with zero, getBestComment returns null and the handler issues no
best-comment update. -/
theorem all_zero_balances_no_update (bal : String → Option Int)
    (cs : List Comment) (h : ∀ c ∈ cs, bal c.walletAddress = some 0) :
    getBestComment bal cs = none ∧ bestCommentsUpdate bal cs = none := by
  have h1 : getBestComment bal cs = none := by
    unfold getBestComment
    rw [foldl_bestStep_zero bal cs h]
  refine ⟨h1, ?_⟩
  unfold bestCommentsUpdate
  rw [h1]

/-- Witness for the amended claim C2 at a concrete one-comment input. -/
theorem all_zero_balances_no_update_witness :
    getBestComment (fun _ => some 0) [commentB] = none ∧
    bestCommentsUpdate (fun _ => some 0) [commentB] = none :=
  all_zero_balances_no_update _ _ (fun _ _ => rfl)

/-- Claim C3: the repair pass is idempotent.  Re-running fixVolumeHistory
on its own output (stored back as numeric entries) returns that output
unchanged, and the per-row sweep body detects the equal serialization and
issues no write. -/
theorem repairHistory_idempotent (l : List RawItem) :
    fixVolumeHistory ((fixVolumeHistory l).map sampleToRaw) = fixVolumeHistory l ∧
    checkAndFixRow (some ((fixVolumeHistory l).map sampleToRaw)) = none := by
  refine ⟨fixVolumeHistory_idem l, ?_⟩
  unfold checkAndFixRow
  simp only [Option.getD_some, fixVolumeHistory_idem l, encodeRaw_of_fixed, Json.beq_refl]
  simp

/-- Claim C4, counterexample: a history entry carrying the numeric volume
minus one passes the filter untouched, so the repaired history contains a
negative volume, contradicting the claimed non-negativity invariant. -/
theorem repaired_volume_can_be_negative :
    fixVolumeHistory [RawItem.entry ⟨.num (.fin (-1)), .num (.fin 0)⟩]
      = [⟨.fin 0, .fin (-1)⟩] ∧ ¬ (0 : ℚ) ≤ -1 := by
  constructor
  · decide
  · decide

/-- Claim C4 as amended: the repair pass preserves well-formedness rather
than establishing it.  Every retained sample takes its numeric values from
some input entry, so when every input entry coerces to a finite
non-negative volume and a finite integer time, so does every retained
sample. -/
theorem repaired_samples_wellformed (l : List RawItem)
    (h : ∀ e : RawEntry, RawItem.entry e ∈ l →
      finiteNonNeg (coerceNum e.volume) ∧ finiteInt (coerceNum e.time)) :
    ∀ s ∈ fixVolumeHistoryTop (.arr l), finiteNonNeg s.volume ∧ finiteInt s.time := by
  intro s hs
  have hs' : s ∈ fixVolumeHistory l := hs
  rcases mem_fixVolumeHistory hs' with ⟨it, hmem, hkeep, hconv⟩
  cases it with
  | nonEntry ser => simp [keepEntry] at hkeep
  | entry e =>
    rcases h e hmem with ⟨hv, ht⟩
    subst hconv
    exact ⟨hv, ht⟩

/-- Witness for the amended claim C4 at a concrete one-entry input. -/
theorem repaired_samples_wellformed_witness :
    finiteNonNeg (JSNum.fin 2) ∧ finiteInt (JSNum.fin 1) :=
  repaired_samples_wellformed [mkEntry 1 2]
    (by
      intro e he
      simp only [mkEntry, List.mem_singleton, RawItem.entry.injEq] at he
      subst he
      exact ⟨⟨2, by decide, by norm_num⟩, ⟨1, by decide⟩⟩)
    ⟨.fin 1, .fin 2⟩ (by decide)

/-- Claim C6, counterexample: the entry whose textual volume models the
string Infinity has zero dots and parses to a non-finite value.  The
claim says such a sample is removed, but the filter keeps it, because the
code only rejects a parse that is NaN. -/
theorem filter_keeps_textual_infinity :
    List.filter keepEntry [infinityVolumeItem] = [infinityVolumeItem] ∧
    List.filter claimKeepC6 [infinityVolumeItem] = [] := by
  constructor
  · rfl
  · rfl

/-- Claim C6 as amended: the filter removes exactly the samples that are
not objects, whose volume is null, undefined or neither number nor
string, whose textual volume has more than one dot or parses to NaN, or
whose non-numeric time coerces to NaN; in particular the two-dot textual
volume is removed while the valid entry survives. -/
theorem filter_characterization :
    (∀ l : List RawItem, l.filter keepEntry = l.filter amendedKeepC6) ∧
    fixVolumeHistory [RawItem.entry ⟨.str ⟨2, .fin (1/100), 0⟩, .num (.fin 1)⟩, mkEntry 3 4]
      = [⟨.fin 3, .fin 4⟩] := by
  constructor
  · intro l
    exact List.filter_congr (fun it _ => keepEntry_eq_amended it)
  · rfl

/-- Claim C5: applying a non-empty sequence of volume events to a fresh
address yields a row whose volume is the converted amount of the last
event and whose history is exactly the ordered list of samples of the
events, one appended per event. -/
theorem volume_events_fresh_address (f : Int → α) (events : List VolumeEvent)
    (lastEvent : VolumeEvent) (h : events.getLast? = some lastEvent) :
    applyVolumeEvents f none events =
      some ⟨f lastEvent.totalRaised,
            events.map (fun e => ⟨e.blockTimestampMs, f e.totalRaised⟩)⟩ := by
  cases events with
  | nil => simp at h
  | cons e t =>
    have h1 : applyVolumeEvents f none (e :: t)
        = applyVolumeEvents f
            (some ⟨f e.totalRaised, [⟨e.blockTimestampMs, f e.totalRaised⟩]⟩) t := rfl
    rw [h1, applyVolumeEvents_from_some]
    cases t with
    | nil =>
      simp only [List.getLast?_singleton, Option.some.injEq] at h
      subst h
      simp
    | cons b t' =>
      rw [List.getLast?_cons_cons] at h
      simp [h]

/-- Witness for claim C5 at a concrete one-event run. -/
theorem volume_events_fresh_address_witness :
    applyVolumeEvents (fun z : Int => z) none [eventEx]
      = some ⟨5, [⟨100, 5⟩]⟩ :=
  volume_events_fresh_address _ _ eventEx rfl

/-- Claim C7: with exactly two comments whose balance lookups succeed with
the same positive balance, the comment with the later creation time wins
in both presentation orders. -/
theorem tiebreak_later_comment_wins (bal : String → Option Int)
    (ca cb : Comment) (b : Int)
    (ha : bal ca.walletAddress = some b) (hb : bal cb.walletAddress = some b)
    (hpos : 0 < b) (hlt : ca.createdAt < cb.createdAt) :
    getBestComment bal [ca, cb] = some cb ∧
    getBestComment bal [cb, ca] = some cb := by
  have hstep1 : bestStep bal (none, 0) ca = (some ca, b) := by
    unfold bestStep
    rw [ha]
    simp [hpos]
  have hstep2 : bestStep bal (some ca, b) cb = (some cb, b) := by
    unfold bestStep
    rw [hb]
    simp [lt_irrefl, hlt]
  have hstep1b : bestStep bal (none, 0) cb = (some cb, b) := by
    unfold bestStep
    rw [hb]
    simp [hpos]
  have hstep2b : bestStep bal (some cb, b) ca = (some cb, b) := by
    unfold bestStep
    rw [ha]
    simp [lt_irrefl, not_lt.mpr hlt.le]
  constructor
  · show (List.foldl (bestStep bal) (none, 0) [ca, cb]).1 = some cb
    rw [List.foldl_cons, hstep1, List.foldl_cons, hstep2]
    rfl
  · show (List.foldl (bestStep bal) (none, 0) [cb, ca]).1 = some cb
    rw [List.foldl_cons, hstep1b, List.foldl_cons, hstep2b]
    rfl

/-- Witness for claim C7 at two concrete comments with equal balance one. -/
theorem tiebreak_later_comment_wins_witness :
    getBestComment (fun _ => some 1) [commentC, commentD] = some commentD ∧
    getBestComment (fun _ => some 1) [commentD, commentC] = some commentD :=
  tiebreak_later_comment_wins _ commentC commentD 1 rfl rfl
    (by norm_num) (by decide)

/-- Claim C8: the per-row sweep body skips the write exactly when the
serialized repaired history equals the serialized original, and otherwise
issues the single update carrying the repaired history together with the
volume of its last sample, or zero when no sample survives. -/
theorem checkAndFixRow_write_policy (volumeHistory : Option (List RawItem)) :
    (Json.beq (encodeRawHistory (volumeHistory.getD []))
        (encodeFixedHistory (fixVolumeHistory (volumeHistory.getD []))) = true →
      checkAndFixRow volumeHistory = none) ∧
    (Json.beq (encodeRawHistory (volumeHistory.getD []))
        (encodeFixedHistory (fixVolumeHistory (volumeHistory.getD []))) = false →
      checkAndFixRow volumeHistory =
        some ⟨fixVolumeHistory (volumeHistory.getD []),
              match (fixVolumeHistory (volumeHistory.getD [])).getLast? with
              | some s => s.volume
              | none => .fin 0⟩) := by
  constructor <;> intro h <;> unfold checkAndFixRow <;> simp [h]

/-- Witness for claim C8: a history holding one null slot serializes
differently from its empty repair, so the row receives the single update
writing the empty history and volume zero. -/
theorem checkAndFixRow_write_policy_witness :
    checkAndFixRow (some [RawItem.nonEntry Json.null]) = some ⟨[], .fin 0⟩ :=
  (checkAndFixRow_write_policy (some [RawItem.nonEntry Json.null])).2 rfl

/-- Claim C9: starting from stores holding no record for the canonical
address, running the SaleCreated creation handler twice leaves exactly one
News record and exactly one TokenData record for that address, the second
run returning the stores unchanged. -/
theorem saleCreated_idempotent (news : List NewsRecord) (tok : List TokenDataRecord)
    (addr : String) (ts1 ts2 : Int)
    (name1 desc1 logo1 name2 desc2 logo2 : String)
    (hn : news.countP (fun r => r.onchainAddress == canonicalAddress addr) = 0)
    (ht : tok.countP (fun r => r.onchainAddress == canonicalAddress addr) = 0) :
    insertNewsOnSaleCreated (insertNewsOnSaleCreated news addr ts1 name1 desc1 logo1)
        addr ts2 name2 desc2 logo2
      = insertNewsOnSaleCreated news addr ts1 name1 desc1 logo1 ∧
    (insertNewsOnSaleCreated news addr ts1 name1 desc1 logo1).countP
        (fun r => r.onchainAddress == canonicalAddress addr) = 1 ∧
    insertTokenDataOnSaleCreated (insertTokenDataOnSaleCreated tok addr) addr
      = insertTokenDataOnSaleCreated tok addr ∧
    (insertTokenDataOnSaleCreated tok addr).countP
        (fun r => r.onchainAddress == canonicalAddress addr) = 1 := by
  have hanyn : news.any (fun r => r.onchainAddress == canonicalAddress addr) = false := by
    rw [List.any_eq_false]
    intro r hr
    exact List.countP_eq_zero.mp hn r hr
  have hanyt : tok.any (fun r => r.onchainAddress == canonicalAddress addr) = false := by
    rw [List.any_eq_false]
    intro r hr
    exact List.countP_eq_zero.mp ht r hr
  have hinsn : insertNewsOnSaleCreated news addr ts1 name1 desc1 logo1
      = news ++ [⟨canonicalAddress addr, toString ts1, name1, desc1, logo1, false⟩] := by
    simp only [insertNewsOnSaleCreated]
    rw [hanyn]
    simp
  have hinst : insertTokenDataOnSaleCreated tok addr
      = tok ++ [⟨canonicalAddress addr, .fin 0, []⟩] := by
    simp only [insertTokenDataOnSaleCreated]
    rw [hanyt]
    simp
  refine ⟨?_, ?_, ?_, ?_⟩
  · rw [hinsn]
    simp only [insertNewsOnSaleCreated]
    rw [List.any_append, hanyn]
    simp
  · rw [hinsn, List.countP_append, hn]
    simp
  · rw [hinst]
    simp only [insertTokenDataOnSaleCreated]
    rw [List.any_append, hanyt]
    simp
  · rw [hinst, List.countP_append, ht]
    simp

/-- Witness for claim C9 at empty stores and a concrete mixed-case
address. -/
theorem saleCreated_idempotent_witness :
    insertNewsOnSaleCreated
        (insertNewsOnSaleCreated [] addrEx 5 addrEx addrEx addrEx)
        addrEx 6 addrEx addrEx addrEx
      = insertNewsOnSaleCreated [] addrEx 5 addrEx addrEx addrEx ∧
    (insertNewsOnSaleCreated [] addrEx 5 addrEx addrEx addrEx).countP
        (fun r => r.onchainAddress == canonicalAddress addrEx) = 1 ∧
    insertTokenDataOnSaleCreated (insertTokenDataOnSaleCreated [] addrEx) addrEx
      = insertTokenDataOnSaleCreated [] addrEx ∧
    (insertTokenDataOnSaleCreated [] addrEx).countP
        (fun r => r.onchainAddress == canonicalAddress addrEx) = 1 :=
  saleCreated_idempotent [] [] addrEx 5 6 addrEx addrEx addrEx addrEx addrEx addrEx
    rfl rfl

/-- Claim C10: on a stored volumeHistory value that is not an array
(including null and undefined) the repair function returns the empty list
instead of failing. -/
theorem repair_total_on_non_arrays (ser : Json) :
    fixVolumeHistoryTop (.nonArray ser) = [] := rfl

end SkinInTheGame
